import Mathlib

/-!
Verification of the terminal multi-line text viewport widget
(`EditableTextBox`): line buffer, cursor and viewport management,
search, and mouse handling, embedded as pure Lean functions.

Strings are modelled as `List Char`; the line buffer is a
`List (List Char)` obtained by splitting the content on newline
characters, exactly as the component computes
`lines = content.split('\n')`.
-/

namespace TicketTui

/-- A text line, as a list of characters. -/
abbrev Line := List Char

/-- Split a content string into lines on newline boundaries, mirroring
JavaScript `content.split('\n')`: the result always has at least one
element, and empty segments are kept. -/
def splitLines : List Char → List Line
  | [] => [[]]
  | c :: rest =>
    if c = '\n' then [] :: splitLines rest
    else
      match splitLines rest with
      | [] => [[c]]
      | l :: ls => (c :: l) :: ls

/-- Join a list of lines with newline separators, mirroring
`newLines.join('\n')`. -/
def joinLines : List Line → List Char
  | [] => []
  | [l] => l
  | l :: ls => l ++ '\n' :: joinLines ls

theorem splitLines_ne_nil (s : List Char) : splitLines s ≠ [] := by
  induction s with
  | nil => simp [splitLines]
  | cons c rest ih =>
    simp only [splitLines]
    split
    · simp
    · split
      · simp
      · simp

/-- Round trip: joining the split of any content reproduces it. -/
theorem joinLines_splitLines (s : List Char) : joinLines (splitLines s) = s := by
  induction s with
  | nil => rfl
  | cons c rest ih =>
    simp only [splitLines]
    split
    · rename_i hc
      subst hc
      rcases h : splitLines rest with _ | ⟨l, ls⟩
      · exact absurd h (splitLines_ne_nil rest)
      · rw [h] at ih
        cases ls with
        | nil => simpa [joinLines] using ih
        | cons l' ls' => simpa [joinLines] using ih
    · rcases h : splitLines rest with _ | ⟨l, ls⟩
      · exact absurd h (splitLines_ne_nil rest)
      · rw [h] at ih
        cases ls with
        | nil => simpa [joinLines] using ih
        | cons l' ls' => simpa [joinLines] using ih

/-- Cursor position: 0-based line index and column index. -/
structure CursorPosition where
  row : Nat
  col : Nat
deriving DecidableEq, Repr

/-- One occurrence of the active search query. -/
structure SearchMatch where
  row : Nat
  col : Nat
  length : Nat
deriving DecidableEq, Repr

/-- Length of line `r`, with `lines[r]?.length || 0` semantics:
out-of-range rows count as length 0. -/
def lineLen (lines : List Line) (r : Nat) : Nat :=
  (lines.getD r []).length

/-- The cursor invariant: `0 <= row < lineCount` and
`0 <= col <= length(line[row])`. -/
def cursorInBounds (lines : List Line) (c : CursorPosition) : Prop :=
  c.row < lines.length ∧ c.col ≤ lineLen lines c.row

/-! ## Search engine

`findMatches` lowercases the query and each line, then repeatedly calls
`indexOf(lowerQuery, startIndex)` advancing `startIndex` to one past
each found occurrence's start. -/

/-- Lowercase a string character-wise, mirroring `toLowerCase()`. -/
def lowerStr (s : List Char) : List Char := s.map Char.toLower

/-- The query `q` occurs in `l` starting at position `p`. -/
def occursAt (l q : List Char) (p : Nat) : Prop :=
  (l.drop p).take q.length = q

instance (l q : List Char) (p : Nat) : Decidable (occursAt l q p) :=
  inferInstanceAs (Decidable ((l.drop p).take q.length = q))

/-- `indexOf(q, start)` with explicit fuel: the smallest position
`p >= start` at which `q` occurs in `l`, if any. -/
def findFromF : Nat → List Char → List Char → Nat → Option Nat
  | 0, _, _, _ => none
  | fuel + 1, l, q, start =>
    if start ≤ l.length then
      if occursAt l q start then some start
      else findFromF fuel l q (start + 1)
    else none

/-- `lowerLine.indexOf(lowerQuery, startIndex)`. -/
def findFrom (l q : List Char) (start : Nat) : Option Nat :=
  findFromF (l.length + 1 - start) l q start

/-- The scan loop of `findMatches` on a single line: record an
occurrence, then continue searching from one past its start. -/
def scanFromF : Nat → List Char → List Char → Nat → List Nat
  | 0, _, _, _ => []
  | fuel + 1, l, q, start =>
    match findFrom l q start with
    | none => []
    | some p => p :: scanFromF fuel l q (p + 1)

/-- All occurrence start columns recorded for one line. -/
def lineOccurrences (l q : List Char) : List Nat :=
  scanFromF (l.length + 1) l q 0

/-- The per-line loop of `findMatches`, with the row index threaded as
the `forEach` index. -/
def findMatchesFrom : List Line → List Char → Nat → List SearchMatch
  | [], _, _ => []
  | l :: ls, q, i =>
    ((lineOccurrences (lowerStr l) (lowerStr q)).map
      (fun p => ⟨i, p, q.length⟩)) ++ findMatchesFrom ls q (i + 1)

/-- `findMatches(query)`: empty query yields no matches; otherwise scan
every line for case-insensitive occurrences. -/
def findMatches (lines : List Line) (query : List Char) : List SearchMatch :=
  if query.isEmpty then [] else findMatchesFrom lines query 0

theorem occursAt_bound {l q : List Char} {p : Nat} (hq : q ≠ [])
    (h : occursAt l q p) : p + q.length ≤ l.length := by
  unfold occursAt at h
  have h1 : q.length ≤ (l.drop p).length := by
    conv_lhs => rw [← h]
    simp [List.length_take]
  have hq1 : 1 ≤ q.length := List.length_pos.mpr hq
  rw [List.length_drop] at h1
  omega

theorem findFromF_some {fuel : Nat} {l q : List Char} {start p : Nat}
    (h : findFromF fuel l q start = some p) :
    start ≤ p ∧ p ≤ l.length ∧ occursAt l q p ∧
      ∀ r, start ≤ r → r < p → ¬ occursAt l q r := by
  induction fuel generalizing start with
  | zero => simp [findFromF] at h
  | succ fuel ih =>
    simp only [findFromF] at h
    split at h
    · rename_i hstart
      split at h
      · rename_i hocc
        cases h
        exact ⟨Nat.le_refl _, hstart, hocc, fun r hr1 hr2 => absurd hr1 (by omega)⟩
      · rename_i hocc
        obtain ⟨h1, h2, h3, h4⟩ := ih h
        refine ⟨by omega, h2, h3, fun r hr1 hr2 => ?_⟩
        rcases Nat.eq_or_lt_of_le hr1 with heq | hlt
        · rw [← heq]; exact hocc
        · exact h4 r (by omega) hr2
    · exact absurd h (by simp)

theorem findFromF_none {fuel : Nat} {l q : List Char} {start : Nat}
    (hfuel : l.length + 1 ≤ fuel + start)
    (h : findFromF fuel l q start = none) :
    ∀ r, start ≤ r → r ≤ l.length → ¬ occursAt l q r := by
  induction fuel generalizing start with
  | zero => intro r hr1 hr2 _; omega
  | succ fuel ih =>
    simp only [findFromF] at h
    split at h
    · split at h
      · exact absurd h (by simp)
      · rename_i hocc
        intro r hr1 hr2 hocc'
        rcases Nat.eq_or_lt_of_le hr1 with heq | hlt
        · rw [← heq] at hocc'; exact hocc hocc'
        · exact ih (by omega) h r (by omega) hr2 hocc'
    · rename_i hstart
      intro r hr1 hr2 _
      omega

theorem findFrom_some {l q : List Char} {start p : Nat}
    (h : findFrom l q start = some p) :
    start ≤ p ∧ p ≤ l.length ∧ occursAt l q p ∧
      ∀ r, start ≤ r → r < p → ¬ occursAt l q r := by
  unfold findFrom at h
  exact findFromF_some h

theorem findFrom_none {l q : List Char} {start : Nat}
    (h : findFrom l q start = none) :
    ∀ r, start ≤ r → r ≤ l.length → ¬ occursAt l q r := by
  unfold findFrom at h
  intro r hr1 hr2
  exact findFromF_none (by omega) h r hr1 hr2

theorem mem_scanFromF {fuel : Nat} {l q : List Char} {start r : Nat}
    (h : r ∈ scanFromF fuel l q start) :
    start ≤ r ∧ r ≤ l.length ∧ occursAt l q r := by
  induction fuel generalizing start with
  | zero => simp [scanFromF] at h
  | succ fuel ih =>
    simp only [scanFromF] at h
    split at h
    · simp at h
    · rename_i p hf
      obtain ⟨hp1, hp2, hp3, _⟩ := findFrom_some hf
      rcases List.mem_cons.mp h with heq | hmem
      · rw [heq]; exact ⟨hp1, hp2, hp3⟩
      · obtain ⟨h1, h2, h3⟩ := ih hmem
        exact ⟨by omega, h2, h3⟩

theorem scanFromF_complete {fuel : Nat} {l q : List Char} {start r : Nat}
    (hfuel : l.length + 1 ≤ fuel + start)
    (hr1 : start ≤ r) (hr2 : r ≤ l.length) (hocc : occursAt l q r) :
    r ∈ scanFromF fuel l q start := by
  induction fuel generalizing start with
  | zero => omega
  | succ fuel ih =>
    simp only [scanFromF]
    cases hf : findFrom l q start with
    | none => exact absurd hocc (findFrom_none hf r hr1 hr2)
    | some p =>
      obtain ⟨hp1, hp2, hp3, hp4⟩ := findFrom_some hf
      rcases Nat.lt_trichotomy r p with hlt | heq | hgt
      · exact absurd hocc (hp4 r hr1 hlt)
      · rw [heq]; exact List.mem_cons_self _ _
      · exact List.mem_cons_of_mem _ (ih (by omega) (by omega))

theorem scanFromF_pairwise (fuel : Nat) (l q : List Char) (start : Nat) :
    (scanFromF fuel l q start).Pairwise (· < ·) := by
  induction fuel generalizing start with
  | zero => simp [scanFromF]
  | succ fuel ih =>
    simp only [scanFromF]
    split
    · simp
    · rename_i p hf
      refine List.pairwise_cons.mpr ⟨fun b hb => ?_, ih _⟩
      have := mem_scanFromF hb
      omega

theorem mem_lineOccurrences {l q : List Char} {r : Nat} (hq : q ≠ []) :
    r ∈ lineOccurrences l q ↔ occursAt l q r := by
  constructor
  · intro h
    exact (mem_scanFromF h).2.2
  · intro h
    have hb := occursAt_bound hq h
    have hq1 : 1 ≤ q.length := List.length_pos.mpr hq
    exact scanFromF_complete (by omega) (Nat.zero_le r) (by omega) h

theorem lineOccurrences_pairwise (l q : List Char) :
    (lineOccurrences l q).Pairwise (· < ·) :=
  scanFromF_pairwise _ _ _ _

theorem mem_findMatchesFrom {ls : List Line} {q : List Char} {i : Nat}
    {m : SearchMatch} :
    m ∈ findMatchesFrom ls q i ↔
      ∃ j, j < ls.length ∧ m.row = i + j ∧ m.length = q.length ∧
        m.col ∈ lineOccurrences (lowerStr (ls.getD j [])) (lowerStr q) := by
  induction ls generalizing i with
  | nil => simp [findMatchesFrom]
  | cons l ls ih =>
    simp only [findMatchesFrom, List.mem_append, List.mem_map, ih]
    constructor
    · rintro (⟨p, hp, rfl⟩ | ⟨j, hj, hrow, hlen, hcol⟩)
      · exact ⟨0, by simp, by simp, rfl, by simpa using hp⟩
      · exact ⟨j + 1, by simpa using hj, by omega,
          hlen, by simpa using hcol⟩
    · rintro ⟨j, hj, hrow, hlen, hcol⟩
      cases j with
      | zero =>
        left
        refine ⟨m.col, by simpa using hcol, ?_⟩
        cases m
        simp only [List.getD_cons_zero] at hcol
        simp_all
      | succ j =>
        right
        exact ⟨j, by simpa using hj, by omega, hlen, by simpa using hcol⟩

theorem findMatchesFrom_row_le {ls : List Line} {q : List Char} {i : Nat}
    {m : SearchMatch} (h : m ∈ findMatchesFrom ls q i) : i ≤ m.row := by
  obtain ⟨j, _, hrow, _, _⟩ := mem_findMatchesFrom.mp h
  omega

/-- Document order on matches: by row, then by column. -/
def matchLT (a b : SearchMatch) : Prop :=
  a.row < b.row ∨ (a.row = b.row ∧ a.col < b.col)

instance (a b : SearchMatch) : Decidable (matchLT a b) :=
  inferInstanceAs (Decidable (a.row < b.row ∨ (a.row = b.row ∧ a.col < b.col)))

theorem findMatchesFrom_pairwise (ls : List Line) (q : List Char) (i : Nat) :
    (findMatchesFrom ls q i).Pairwise matchLT := by
  induction ls generalizing i with
  | nil => simp [findMatchesFrom]
  | cons l ls ih =>
    simp only [findMatchesFrom]
    refine List.pairwise_append.mpr ⟨?_, ih _, ?_⟩
    · refine List.Pairwise.map _ (fun a b hab => ?_)
        (lineOccurrences_pairwise (lowerStr l) (lowerStr q))
      exact Or.inr ⟨rfl, hab⟩
    · intro a ha b hb
      obtain ⟨p, _, rfl⟩ := List.mem_map.mp ha
      have hb' := findMatchesFrom_row_le hb
      exact Or.inl (by simp; omega)

theorem lowerStr_ne_nil {q : List Char} (hq : q ≠ []) : lowerStr q ≠ [] := by
  simpa [lowerStr] using hq

theorem lowerStr_length (s : List Char) : (lowerStr s).length = s.length :=
  List.length_map _ _

/-- Characterization of the full match set: for a non-empty query, the
matches are exactly the (possibly overlapping) case-insensitive
occurrences, carrying the query's length. -/
theorem mem_findMatches {lines : List Line} {q : List Char} {m : SearchMatch}
    (hq : q ≠ []) :
    m ∈ findMatches lines q ↔
      m.row < lines.length ∧ m.length = q.length ∧
        occursAt (lowerStr (lines.getD m.row [])) (lowerStr q) m.col := by
  unfold findMatches
  rw [if_neg (by simpa [List.isEmpty_iff] using hq)]
  rw [mem_findMatchesFrom]
  constructor
  · rintro ⟨j, hj, hrow, hlen, hcol⟩
    have : j = m.row := by omega
    subst this
    exact ⟨hj, hlen, (mem_lineOccurrences (lowerStr_ne_nil hq)).mp hcol⟩
  · rintro ⟨hrow, hlen, hocc⟩
    exact ⟨m.row, hrow, by omega, hlen,
      (mem_lineOccurrences (lowerStr_ne_nil hq)).mpr hocc⟩

/-- Every recorded match points inside the buffer: its row is a valid
line index and its column is within the line. -/
theorem findMatches_bounds {lines : List Line} {q : List Char}
    {m : SearchMatch} (h : m ∈ findMatches lines q) :
    m.row < lines.length ∧ m.col ≤ lineLen lines m.row := by
  by_cases hq : q = []
  · subst hq
    simp [findMatches] at h
  · obtain ⟨hrow, hlen, hocc⟩ := (mem_findMatches hq).mp h
    have hb := occursAt_bound (lowerStr_ne_nil hq) hocc
    rw [lowerStr_length, lowerStr_length] at hb
    have hq1 : 1 ≤ q.length := List.length_pos.mpr hq
    exact ⟨hrow, by unfold lineLen; omega⟩

theorem findMatches_pairwise (lines : List Line) (q : List Char) :
    (findMatches lines q).Pairwise matchLT := by
  unfold findMatches
  split
  · simp
  · exact findMatchesFrom_pairwise _ _ _

/-! ## Viewport and scrolling

`maxScroll = Math.max(0, totalLines - safeHeight)`; with natural-number
truncated subtraction this is `lineCount - h`. -/

/-- `Math.max(0, lineCount - height)`. -/
def maxScrollOf (lineCount h : Nat) : Nat := lineCount - h

/-- The auto-scroll effect: when the manual-scroll flag is set, leave
the offset alone; otherwise scroll up to the cursor row, or down so the
cursor is the last visible row. -/
def ensureVisible (manual : Bool) (row st h maxScroll : Nat) : Nat :=
  if manual then st
  else if row < st then row
  else if st + h ≤ row then min maxScroll (row - h + 1)
  else st

/-- Scroll adjustment of `jumpToMatch`: scroll up to the match row, or
down to place it half a viewport above the bottom edge. -/
def jumpScroll (row st h maxScroll : Nat) : Nat :=
  if row < st then row
  else if st + h ≤ row then min maxScroll (row - h / 2)
  else st

/-- Wheel-up handler: `Math.max(0, prev - 2)`. -/
def wheelUpScroll (st : Nat) : Nat := st - 2

/-- Wheel-down handler: `Math.min(maxScroll, prev + 2)`. -/
def wheelDownScroll (maxScroll st : Nat) : Nat := min maxScroll (st + 2)

/-- Page-up scroll: `Math.max(0, prev - safeHeight)`. -/
def pageUpScroll (h st : Nat) : Nat := st - h

/-- Page-down scroll: `Math.min(maxScroll, prev + safeHeight)`. -/
def pageDownScroll (maxScroll h st : Nat) : Nat := min maxScroll (st + h)

/-- Content-change cursor reconciliation: clamp the row to the last
line and the column to the (new) line's length. -/
def clampCursorOnChange (lines : List Line) (c : CursorPosition) :
    CursorPosition :=
  ⟨min c.row (lines.length - 1),
    min c.col (lineLen lines (min c.row (lines.length - 1)))⟩

/-- The full reaction to an external content change: the cursor-clamp
effect followed by the auto-scroll effect (which is the only scroll
adjustment that runs on a content change). -/
def contentChangeReconcile (lines : List Line) (c : CursorPosition)
    (st h : Nat) (manual : Bool) : CursorPosition × Nat :=
  (clampCursorOnChange lines c,
    ensureVisible manual (clampCursorOnChange lines c).row st h
      (maxScrollOf lines.length h))

/-! ## Mouse protocol adapter -/

/-- Widget content-area geometry derived from the host-supplied screen
position: `contentTop = screenTop + 1`, `contentLeft = screenLeft + 2`. -/
structure Geometry where
  contentTop : Nat
  contentLeft : Nat
  contentHeight : Nat
  contentWidth : Nat
deriving DecidableEq, Repr

/-- A decoded SGR mouse event (0-based screen coordinates). -/
structure SgrMouseEvent where
  button : Nat
  screenX : Int
  screenY : Int
  isPress : Bool
deriving DecidableEq, Repr

/-- The left-click hit test and coordinate translation: accept the
event only when it is a primary-button press inside the content
rectangle whose translated buffer row exists; return the new cursor. -/
def leftClickHit (g : Geometry) (lines : List Line) (st : Nat)
    (e : SgrMouseEvent) : Option CursorPosition :=
  if e.isPress = true ∧ e.button = 0 then
    if (g.contentTop : Int) ≤ e.screenY ∧
        e.screenY < (g.contentTop : Int) + g.contentHeight ∧
        (g.contentLeft : Int) ≤ e.screenX ∧
        e.screenX < (g.contentLeft : Int) + g.contentWidth then
      if st + (e.screenY - g.contentTop).toNat < lines.length then
        some ⟨st + (e.screenY - g.contentTop).toNat,
          min ((e.screenX - g.contentLeft).toNat)
            (lineLen lines (st + (e.screenY - g.contentTop).toNat))⟩
      else none
    else none
  else none

/-- The mouse-relevant widget state: cursor, scroll offset, and the
manual-scroll flag. -/
structure EState where
  cursor : CursorPosition
  scrollTop : Nat
  manual : Bool
deriving DecidableEq, Repr

/-- `handleData`'s per-event dispatch: wheel up (64) and wheel down
(65) presses scroll and set the manual flag; a primary-button press
runs the hit test; everything else is ignored. -/
def processMouseEvent (g : Geometry) (lines : List Line) (maxScroll : Nat)
    (s : EState) (e : SgrMouseEvent) : EState :=
  if e.isPress = true ∧ e.button = 64 then
    { s with scrollTop := wheelUpScroll s.scrollTop, manual := true }
  else if e.isPress = true ∧ e.button = 65 then
    { s with scrollTop := wheelDownScroll maxScroll s.scrollTop,
             manual := true }
  else if e.isPress = true ∧ e.button = 0 then
    match leftClickHit g lines s.scrollTop e with
    | some c => { s with cursor := c, manual := true }
    | none => s
  else s

/-! ## Terminal mouse-reporting activation -/

/-- Terminal state observed by the widget's mouse effect: the two mouse
reporting modes (basic tracking 1000 and SGR extended 1006) plus the
stream of escape writes performed so far. -/
structure Term where
  mode1000 : Bool
  mode1006 : Bool
  output : List String
deriving DecidableEq, Repr

/-- The enable write at effect start:
`stdout.write('\x1b[?1000h\x1b[?1006h')`. -/
def enableMouse (t : Term) : Term :=
  { mode1000 := true, mode1006 := true,
    output := t.output ++ ["\x1b[?1000h\x1b[?1006h"] }

/-- The disable write in the effect cleanup:
`stdout.write('\x1b[?1006l\x1b[?1000l')`. -/
def disableMouse (t : Term) : Term :=
  { mode1000 := false, mode1006 := false,
    output := t.output ++ ["\x1b[?1006l\x1b[?1000l"] }

/-- One widget activation lifetime: the effect body runs once (enable),
and its cleanup runs once (disable). -/
def mouseActivation (t : Term) : Term := disableMouse (enableMouse t)

/-! ## Line-buffer mutation -/

/-- The backspace handler's buffer/cursor update: with `col > 0` remove
the character left of the cursor; with `col == 0, row > 0` merge the
current line into the previous one and delete it; at the origin do
nothing. -/
def deleteBackward (lines : List Line) (c : CursorPosition) :
    List Line × CursorPosition :=
  if 0 < c.col then
    (lines.set c.row
        ((lines.getD c.row []).take (c.col - 1) ++
          (lines.getD c.row []).drop c.col),
      ⟨c.row, c.col - 1⟩)
  else if 0 < c.row then
    ((lines.set (c.row - 1)
        (lines.getD (c.row - 1) [] ++ lines.getD c.row [])).eraseIdx c.row,
      ⟨c.row - 1, (lines.getD (c.row - 1) []).length⟩)
  else (lines, c)

/-- The whole backspace key handler: mutate the buffer, then always
call `updateContent(newLines)`, i.e. `onChange(newLines.join('\n'))`;
the third component is the payload passed to `onChange`. -/
def backspaceHandler (lines : List Line) (c : CursorPosition) :
    List Line × CursorPosition × List Char :=
  ((deleteBackward lines c).1, (deleteBackward lines c).2,
    joinLines (deleteBackward lines c).1)

/-! ## Navigation operations -/

/-- A navigation operation of the widget: the four arrow keys, page
up/down (with the viewport height), a search jump (query and match
index, guarded like `jumpToMatch`), and a mouse click. -/
inductive NavOp where
  | up : NavOp
  | down : NavOp
  | left : NavOp
  | right : NavOp
  | pageUp (h : Nat) : NavOp
  | pageDown (h : Nat) : NavOp
  | jump (q : List Char) (i : Nat) : NavOp
  | click (g : Geometry) (st : Nat) (e : SgrMouseEvent) : NavOp

/-- Cursor transition of each navigation operation, mirroring the key
handlers and `jumpToMatch`/`handleData`. -/
def navStep (lines : List Line) (op : NavOp) (c : CursorPosition) :
    CursorPosition :=
  match op with
  | .up => ⟨c.row - 1, min c.col (lineLen lines (c.row - 1))⟩
  | .down =>
    ⟨min (lines.length - 1) (c.row + 1),
      min c.col (lineLen lines (min (lines.length - 1) (c.row + 1)))⟩
  | .left =>
    if 0 < c.col then ⟨c.row, c.col - 1⟩
    else if 0 < c.row then ⟨c.row - 1, lineLen lines (c.row - 1)⟩
    else c
  | .right =>
    if c.col < lineLen lines c.row then ⟨c.row, c.col + 1⟩
    else if c.row < lines.length - 1 then ⟨c.row + 1, 0⟩
    else c
  | .pageUp h => ⟨c.row - h, 0⟩
  | .pageDown h => ⟨min (lines.length - 1) (c.row + h), 0⟩
  | .jump q i =>
    match (findMatches lines q)[i]? with
    | some m => ⟨m.row, m.col⟩
    | none => c
  | .click g st e => (leftClickHit g lines st e).getD c

/-! ## Closest-match selection -/

/-- The composite distance of the match-recompute effect:
`|match.row - cursor.row| * 1000 + |match.col - cursor.col|`. -/
def matchDistance (m : SearchMatch) (c : CursorPosition) : Nat :=
  (((m.row : Int) - c.row).natAbs) * 1000 + ((m.col : Int) - c.col).natAbs

/-- The `forEach` loop state of the closest-match search: current index
`i`, best index and best distance so far; update only on a strictly
smaller distance. -/
def closestFromP (c : CursorPosition) :
    List SearchMatch → Nat → Nat × Nat → Nat × Nat
  | [], _, acc => acc
  | m :: ms, i, (bi, bd) =>
    if matchDistance m c < bd then closestFromP c ms (i + 1) (i, matchDistance m c)
    else closestFromP c ms (i + 1) (bi, bd)

/-- Index of the match closest to the cursor (`closestIndex` in the
effect): the first iteration always beats the initial `Infinity`. -/
def closestMatchIndex (ms : List SearchMatch) (c : CursorPosition) : Nat :=
  match ms with
  | [] => 0
  | m :: rest => (closestFromP c rest 1 (0, matchDistance m c)).1

/-- The whole match-recompute reaction for a non-empty match set:
select the closest match, move the cursor there, and adjust the scroll
as `jumpToMatch` does. Returns (index, cursor, scrollTop). -/
def searchRecomputeJump (ms : List SearchMatch) (c : CursorPosition)
    (st h maxScroll : Nat) : Nat × CursorPosition × Nat :=
  match ms[closestMatchIndex ms c]? with
  | some m =>
    (closestMatchIndex ms c, ⟨m.row, m.col⟩, jumpScroll m.row st h maxScroll)
  | none => (closestMatchIndex ms c, c, st)

/-- Default match used with `List.getD`. -/
def defMatch : SearchMatch := ⟨0, 0, 0⟩

theorem closestFromP_snd_le (c : CursorPosition) (ms : List SearchMatch)
    (i bi bd : Nat) :
    (closestFromP c ms i (bi, bd)).2 ≤ bd ∧
      ∀ j, j < ms.length →
        (closestFromP c ms i (bi, bd)).2 ≤ matchDistance (ms.getD j defMatch) c := by
  induction ms generalizing i bi bd with
  | nil => simp [closestFromP]
  | cons m ms ih =>
    simp only [closestFromP]
    split
    · rename_i hlt
      obtain ⟨ha, hb⟩ := ih (i + 1) i (matchDistance m c)
      refine ⟨by omega, fun j hj => ?_⟩
      cases j with
      | zero => simpa using ha
      | succ j => simpa using hb j (by simpa using hj)
    · rename_i hge
      obtain ⟨ha, hb⟩ := ih (i + 1) bi bd
      refine ⟨ha, fun j hj => ?_⟩
      cases j with
      | zero => simp only [List.getD_cons_zero]; omega
      | succ j => simpa using hb j (by simpa using hj)

theorem closestFromP_mem (c : CursorPosition) (ms : List SearchMatch)
    (i bi bd : Nat) :
    closestFromP c ms i (bi, bd) = (bi, bd) ∨
      ∃ j, j < ms.length ∧
        closestFromP c ms i (bi, bd) =
          (i + j, matchDistance (ms.getD j defMatch) c) := by
  induction ms generalizing i bi bd with
  | nil => left; simp [closestFromP]
  | cons m ms ih =>
    simp only [closestFromP]
    split
    · right
      rcases ih (i + 1) i (matchDistance m c) with heq | ⟨j, hj, heq⟩
      · exact ⟨0, by simp, by simpa using heq⟩
      · refine ⟨j + 1, by simpa using hj, ?_⟩
        have hidx : i + (j + 1) = i + 1 + j := by omega
        rw [hidx, List.getD_cons_succ]
        exact heq
    · rcases ih (i + 1) bi bd with heq | ⟨j, hj, heq⟩
      · left; exact heq
      · right
        refine ⟨j + 1, by simpa using hj, ?_⟩
        have hidx : i + (j + 1) = i + 1 + j := by omega
        rw [hidx, List.getD_cons_succ]
        exact heq

/-- The closest-match selection returns a valid index whose match
minimizes the composite distance over the whole match set. -/
theorem closestMatchIndex_spec (ms : List SearchMatch) (c : CursorPosition)
    (hne : ms ≠ []) :
    closestMatchIndex ms c < ms.length ∧
      ∀ j, j < ms.length →
        matchDistance (ms.getD (closestMatchIndex ms c) defMatch) c ≤
          matchDistance (ms.getD j defMatch) c := by
  cases ms with
  | nil => exact absurd rfl hne
  | cons m rest =>
    have hle := closestFromP_snd_le c rest 1 0 (matchDistance m c)
    have hmem := closestFromP_mem c rest 1 0 (matchDistance m c)
    have hval : (closestFromP c rest 1 (0, matchDistance m c)).1 <
        (m :: rest).length ∧
        matchDistance ((m :: rest).getD
          (closestFromP c rest 1 (0, matchDistance m c)).1 defMatch) c =
          (closestFromP c rest 1 (0, matchDistance m c)).2 := by
      rcases hmem with heq | ⟨j, hj, heq⟩
      · rw [heq]; simp
      · rw [heq]
        constructor
        · simp only [List.length_cons]; omega
        · have hidx : 1 + j = j + 1 := by omega
          simp only [hidx, List.getD_cons_succ]
    have hmin : ∀ j, j < (m :: rest).length →
        (closestFromP c rest 1 (0, matchDistance m c)).2 ≤
          matchDistance ((m :: rest).getD j defMatch) c := by
      intro j hj
      cases j with
      | zero => simpa using hle.1
      | succ j =>
        simp only [List.getD_cons_succ]
        exact hle.2 j (by simpa using hj)
    unfold closestMatchIndex
    refine ⟨hval.1, fun j hj => ?_⟩
    rw [hval.2]
    exact hmin j hj

/-- Inversion of the left-click hit test: the accepted clicks are
exactly the primary-button presses inside the content rectangle whose
translated row is a real buffer line, and the produced cursor is the
translated position with the column clamped to the line length. -/
theorem leftClickHit_some_iff (g : Geometry) (lines : List Line) (st : Nat)
    (e : SgrMouseEvent) (cur : CursorPosition) :
    leftClickHit g lines st e = some cur ↔
      e.isPress = true ∧ e.button = 0 ∧
      (g.contentTop : Int) ≤ e.screenY ∧
      e.screenY < (g.contentTop : Int) + g.contentHeight ∧
      (g.contentLeft : Int) ≤ e.screenX ∧
      e.screenX < (g.contentLeft : Int) + g.contentWidth ∧
      st + (e.screenY - g.contentTop).toNat < lines.length ∧
      cur = ⟨st + (e.screenY - g.contentTop).toNat,
        min (e.screenX - g.contentLeft).toNat
          (lineLen lines (st + (e.screenY - g.contentTop).toNat))⟩ := by
  unfold leftClickHit
  split
  · rename_i h1
    split
    · rename_i h2
      split
      · rename_i h3
        simp only [Option.some_inj]
        constructor
        · intro he
          exact ⟨h1.1, h1.2, h2.1, h2.2.1, h2.2.2.1, h2.2.2.2, h3, he.symm⟩
        · intro hh
          exact hh.2.2.2.2.2.2.2.symm
      · rename_i h3
        constructor
        · intro h; exact absurd h (by simp)
        · intro hh; exact absurd hh.2.2.2.2.2.2.1 h3
    · rename_i h2
      constructor
      · intro h; exact absurd h (by simp)
      · intro hh; exact absurd ⟨hh.2.2.1, hh.2.2.2.1, hh.2.2.2.2.1, hh.2.2.2.2.2.1⟩ h2
  · rename_i h1
    constructor
    · intro h; exact absurd h (by simp)
    · intro hh; exact absurd ⟨hh.1, hh.2.1⟩ h1

/-- Any cursor produced by the hit test satisfies the cursor invariant. -/
theorem leftClickHit_bounds {g : Geometry} {lines : List Line} {st : Nat}
    {e : SgrMouseEvent} {cur : CursorPosition}
    (h : leftClickHit g lines st e = some cur) :
    cursorInBounds lines cur := by
  obtain ⟨_, _, _, _, _, _, hrow, hcur⟩ := (leftClickHit_some_iff g lines st e cur).mp h
  subst hcur
  exact ⟨hrow, Nat.min_le_right _ _⟩

theorem deleteBackward_pos_col (lines : List Line) (c : CursorPosition)
    (hc : 0 < c.col) :
    deleteBackward lines c =
      (lines.set c.row
          ((lines.getD c.row []).take (c.col - 1) ++
            (lines.getD c.row []).drop c.col),
        ⟨c.row, c.col - 1⟩) := by
  unfold deleteBackward
  rw [if_pos hc]

theorem deleteBackward_zero_col (lines : List Line) (c : CursorPosition)
    (hc0 : c.col = 0) (hr : 0 < c.row) :
    deleteBackward lines c =
      ((lines.set (c.row - 1)
          (lines.getD (c.row - 1) [] ++ lines.getD c.row [])).eraseIdx c.row,
        ⟨c.row - 1, (lines.getD (c.row - 1) []).length⟩) := by
  unfold deleteBackward
  rw [if_neg (by omega), if_pos hr]

/-- Merging line `row` into line `row-1` and deleting line `row`
produces the expected take/merged/drop decomposition. -/
theorem merge_erase_eq (lines : List Line) (row : Nat) (hrpos : 0 < row)
    (hrow : row < lines.length) :
    (lines.set (row - 1)
        (lines.getD (row - 1) [] ++ lines.getD row [])).eraseIdx row =
      lines.take (row - 1) ++
        ((lines.getD (row - 1) [] ++ lines.getD row []) ::
          lines.drop (row + 1)) := by
  induction lines generalizing row with
  | nil => simp at hrow
  | cons a rest ih =>
    cases row with
    | zero => omega
    | succ row' =>
      cases row' with
      | zero =>
        cases rest with
        | nil => simp at hrow
        | cons b rest' => simp
      | succ r =>
        have h2 : r + 1 < rest.length := by
          simpa using hrow
        have hih := ih (r + 1) (Nat.succ_pos r) h2
        have e1 : r + 1 + 1 - 1 = r + 1 := rfl
        simp only [e1, List.getD_cons_succ, List.set_cons_succ,
          List.eraseIdx_cons_succ, List.take_succ_cons, List.drop_succ_cons,
          List.cons_append]
        rw [show r + 1 - 1 = r from rfl] at hih
        rw [hih]

/-- C1: for a valid state (non-empty line buffer, cursor within
bounds), every navigation operation — arrow up/down/left/right, page
up/down, search jump, accepted mouse click — keeps the cursor
satisfying `0 <= row < lineCount` and `0 <= col <= length(line[row])`;
and after any external content change the reconciliation step restores
this invariant from an arbitrary cursor by clamping row and column. -/
theorem claim1_navigation_preserves_cursor_bounds (lines : List Line)
    (hne : lines ≠ []) :
    (∀ (c : CursorPosition) (op : NavOp), cursorInBounds lines c →
        cursorInBounds lines (navStep lines op c)) ∧
    (∀ c : CursorPosition,
        cursorInBounds lines (clampCursorOnChange lines c)) := by
  have hlen : 1 ≤ lines.length := List.length_pos.mpr hne
  constructor
  · intro c op hc
    obtain ⟨h1, h2⟩ := hc
    cases op with
    | up =>
      refine ⟨?_, ?_⟩
      · show c.row - 1 < lines.length
        omega
      · exact Nat.min_le_right _ _
    | down =>
      refine ⟨?_, ?_⟩
      · show min (lines.length - 1) (c.row + 1) < lines.length
        have := Nat.min_le_left (lines.length - 1) (c.row + 1)
        omega
      · exact Nat.min_le_right _ _
    | left =>
      simp only [navStep]
      split
      · exact ⟨h1, by show c.col - 1 ≤ lineLen lines c.row; omega⟩
      · split
        · refine ⟨by show c.row - 1 < lines.length; omega, ?_⟩
          show lineLen lines (c.row - 1) ≤ lineLen lines (c.row - 1)
          exact Nat.le_refl _
        · exact ⟨h1, h2⟩
    | right =>
      simp only [navStep]
      split
      · rename_i hlt
        exact ⟨h1, by show c.col + 1 ≤ lineLen lines c.row; omega⟩
      · split
        · rename_i _ hrow
          exact ⟨by show c.row + 1 < lines.length; omega, Nat.zero_le _⟩
        · exact ⟨h1, h2⟩
    | pageUp h =>
      exact ⟨by show c.row - h < lines.length; omega, Nat.zero_le _⟩
    | pageDown h =>
      refine ⟨?_, Nat.zero_le _⟩
      show min (lines.length - 1) (c.row + h) < lines.length
      have := Nat.min_le_left (lines.length - 1) (c.row + h)
      omega
    | jump q i =>
      simp only [navStep]
      cases hm : (findMatches lines q)[i]? with
      | none => exact ⟨h1, h2⟩
      | some m =>
        have hmem : m ∈ findMatches lines q := by
          exact List.getElem?_mem hm
        obtain ⟨hr, hc⟩ := findMatches_bounds hmem
        exact ⟨hr, hc⟩
    | click g st e =>
      simp only [navStep]
      cases hm : leftClickHit g lines st e with
      | none => exact ⟨h1, h2⟩
      | some cur =>
        simpa using leftClickHit_bounds hm
  · intro c
    refine ⟨?_, Nat.min_le_right _ _⟩
    show min c.row (lines.length - 1) < lines.length
    have := Nat.min_le_right c.row (lines.length - 1)
    omega

theorem claim1_witness :
    (([['a']] : List Line) ≠ []) ∧
    ((∀ (c : CursorPosition) (op : NavOp), cursorInBounds [['a']] c →
        cursorInBounds [['a']] (navStep [['a']] op c)) ∧
     (∀ c : CursorPosition,
        cursorInBounds [['a']] (clampCursorOnChange [['a']] c))) :=
  ⟨by decide, claim1_navigation_preserves_cursor_bounds [['a']] (by decide)⟩

/-- C3: for every content string — including leading, trailing or
consecutive newlines — splitting into lines on newline boundaries and
joining back with newlines reproduces the original string exactly. -/
theorem claim3_split_join_round_trip (content : List Char) :
    joinLines (splitLines content) = content :=
  joinLines_splitLines content

/-- C10: deleteBackward at the buffer origin `(0, 0)` leaves the line
buffer and the cursor unchanged, yet the handler still invokes the
content-change callback, with the joined content equal to the
original. The third component of `backspaceHandler` is the payload
passed unconditionally to `onChange`. -/
theorem claim10_backspace_origin_noop (content : List Char) :
    backspaceHandler (splitLines content) ⟨0, 0⟩ =
      (splitLines content, ⟨0, 0⟩, content) := by
  unfold backspaceHandler deleteBackward
  simp only [Nat.lt_irrefl, if_false]
  rw [joinLines_splitLines]

/-- C2 counterexample: shrink the content to 10 lines with viewport
height 5 while `scrollTop = 25` (valid for the previous content) and
the cursor on the old last row. The reconciliation clamps the cursor
to row 9 and the auto-scroll effect then sets `scrollTop = 9`, which
violates `scrollTop <= max(0, lineCount - height) = 5`. -/
theorem claim2_counterexample :
    (contentChangeReconcile (List.replicate 10 ([] : Line)) ⟨29, 0⟩
        25 5 false).2 = 9 ∧
    ¬ ((contentChangeReconcile (List.replicate 10 ([] : Line)) ⟨29, 0⟩
        25 5 false).2 ≤ maxScrollOf 10 5) := by
  decide

/-- C2 (amended): wheel scrolling, page up/down, the auto-scroll
effect and the search-jump scroll all keep `scrollTop` within
`0 <= scrollTop <= max(0, lineCount - height)` provided the bound
already held before the operation (so in particular whenever the line
count has not changed); the content-change reconciliation, however,
clamps only the cursor, so after a content shrink `scrollTop` can
exceed the bound (see the counterexample). Lower bounds are automatic
over natural numbers. -/
theorem claim2_amended_scroll_ops_preserve (lineCount h st row : Nat)
    (hst : st ≤ maxScrollOf lineCount h) :
    wheelUpScroll st ≤ maxScrollOf lineCount h ∧
    wheelDownScroll (maxScrollOf lineCount h) st ≤ maxScrollOf lineCount h ∧
    pageUpScroll h st ≤ maxScrollOf lineCount h ∧
    pageDownScroll (maxScrollOf lineCount h) h st ≤ maxScrollOf lineCount h ∧
    (∀ manual : Bool,
      ensureVisible manual row st h (maxScrollOf lineCount h) ≤
        maxScrollOf lineCount h) ∧
    jumpScroll row st h (maxScrollOf lineCount h) ≤ maxScrollOf lineCount h := by
  refine ⟨?_, ?_, ?_, ?_, ?_, ?_⟩
  · show st - 2 ≤ maxScrollOf lineCount h
    omega
  · show min (maxScrollOf lineCount h) (st + 2) ≤ maxScrollOf lineCount h
    exact Nat.min_le_left _ _
  · show st - h ≤ maxScrollOf lineCount h
    omega
  · show min (maxScrollOf lineCount h) (st + h) ≤ maxScrollOf lineCount h
    exact Nat.min_le_left _ _
  · intro manual
    unfold ensureVisible
    split
    · exact hst
    · split
      · omega
      · split
        · exact Nat.min_le_left _ _
        · exact hst
  · unfold jumpScroll
    split
    · omega
    · split
      · exact Nat.min_le_left _ _
      · exact hst

theorem claim2_witness :
    (3 : Nat) ≤ maxScrollOf 10 5 ∧
    (wheelUpScroll 3 ≤ maxScrollOf 10 5 ∧
     wheelDownScroll (maxScrollOf 10 5) 3 ≤ maxScrollOf 10 5 ∧
     pageUpScroll 5 3 ≤ maxScrollOf 10 5 ∧
     pageDownScroll (maxScrollOf 10 5) 5 3 ≤ maxScrollOf 10 5 ∧
     (∀ manual : Bool,
       ensureVisible manual 7 3 5 (maxScrollOf 10 5) ≤ maxScrollOf 10 5) ∧
     jumpScroll 7 3 5 (maxScrollOf 10 5) ≤ maxScrollOf 10 5) :=
  ⟨by decide, claim2_amended_scroll_ops_preserve 10 5 3 7 (by decide)⟩

/-- C4: for an in-bounds cursor, `deleteBackward` with `col > 0`
removes the character left of the cursor from `line[row]` (the line
becomes `line.eraseIdx (col-1)`), keeps every other line and the line
count unchanged, and decrements the column; with `col == 0, row > 0`
it replaces `line[row-1]` by `line[row-1] ++ line[row]`, removes
`line[row]` (line count drops by one), and puts the cursor at
`(row-1, length of the original line[row-1])`. -/
theorem claim4_deleteBackward (lines : List Line) (c : CursorPosition)
    (hrow : c.row < lines.length) (_hcol : c.col ≤ lineLen lines c.row) :
    (0 < c.col →
      (deleteBackward lines c).2 = ⟨c.row, c.col - 1⟩ ∧
      (deleteBackward lines c).1.length = lines.length ∧
      (deleteBackward lines c).1.getD c.row [] =
        (lines.getD c.row []).eraseIdx (c.col - 1) ∧
      (∀ i, i ≠ c.row →
        (deleteBackward lines c).1.getD i [] = lines.getD i [])) ∧
    (c.col = 0 → 0 < c.row →
      (deleteBackward lines c).1 =
        lines.take (c.row - 1) ++
          ((lines.getD (c.row - 1) [] ++ lines.getD c.row []) ::
            lines.drop (c.row + 1)) ∧
      (deleteBackward lines c).1.length + 1 = lines.length ∧
      (deleteBackward lines c).2 =
        ⟨c.row - 1, (lines.getD (c.row - 1) []).length⟩) := by
  constructor
  · intro hc
    rw [deleteBackward_pos_col lines c hc]
    refine ⟨rfl, by simp, ?_, ?_⟩
    · rw [List.getD_eq_getElem?_getD, List.getElem?_set_self (by exact hrow)]
      simp only [Option.getD_some]
      rw [List.eraseIdx_eq_take_drop_succ]
      have : c.col - 1 + 1 = c.col := by omega
      rw [this]
    · intro i hi
      rw [List.getD_eq_getElem?_getD, List.getElem?_set_ne (by omega),
        ← List.getD_eq_getElem?_getD]
  · intro hc0 hrpos
    rw [deleteBackward_zero_col lines c hc0 hrpos]
    refine ⟨?_, ?_, rfl⟩
    · exact merge_erase_eq lines c.row hrpos hrow
    · have h := merge_erase_eq lines c.row hrpos hrow
      rw [h]
      simp only [List.length_append, List.length_take, List.length_cons,
        List.length_drop]
      omega

theorem claim4_witness :
    ((⟨1, 0⟩ : CursorPosition).row <
        ([['a', 'b'], ['c', 'd']] : List Line).length ∧
      (⟨1, 0⟩ : CursorPosition).col ≤
        lineLen [['a', 'b'], ['c', 'd']] (⟨1, 0⟩ : CursorPosition).row) ∧
    (deleteBackward [['a', 'b'], ['c', 'd']] ⟨1, 0⟩).1 =
      [['a', 'b', 'c', 'd']] ∧
    (deleteBackward [['a', 'b'], ['c', 'd']] ⟨1, 0⟩).2 = ⟨0, 2⟩ := by
  obtain ⟨hl, _, hc⟩ :=
    (claim4_deleteBackward [['a', 'b'], ['c', 'd']] ⟨1, 0⟩ (by decide)
      (by decide)).2 rfl (by decide)
  refine ⟨⟨by decide, by decide⟩, ?_, ?_⟩
  · rw [hl]; rfl
  · rw [hc]; decide

/-- The property asserted by the claim for the match list: consecutive
matches on the same row never overlap. -/
def overlapFree : List SearchMatch → Prop
  | [] => True
  | [_] => True
  | a :: b :: rest =>
    (a.row ≠ b.row ∨ a.col + a.length ≤ b.col) ∧ overlapFree (b :: rest)

def decOverlapFree : (ms : List SearchMatch) → Decidable (overlapFree ms)
  | [] => .isTrue trivial
  | [_] => .isTrue trivial
  | a :: b :: rest =>
    haveI : Decidable (overlapFree (b :: rest)) := decOverlapFree (b :: rest)
    inferInstanceAs
      (Decidable ((a.row ≠ b.row ∨ a.col + a.length ≤ b.col) ∧
        overlapFree (b :: rest)))

instance : ∀ ms : List SearchMatch, Decidable (overlapFree ms) :=
  decOverlapFree

/-- C5 counterexample: query `"aa"` on the single line `"aaa"` yields
the two matches `(0,0,2)` and `(0,1,2)`, which overlap — the scan
advancing only 1 past each found start records overlapping
occurrences instead of skipping them. -/
theorem claim5_counterexample :
    findMatches [['a', 'a', 'a']] ['a', 'a'] =
      [⟨0, 0, 2⟩, ⟨0, 1, 2⟩] ∧
    ¬ overlapFree (findMatches [['a', 'a', 'a']] ['a', 'a']) := by
  decide

/-- C5 (amended): for a non-empty query, `findMatches` records, for
each line, exactly the left-to-right occurrences of the lowercased
query in the lowercased line — all of them, including overlapping
ones, since the scan advances only 1 past each found start — each
match carrying the query's length, and the match set is ordered by
row then column. -/
theorem claim5_amended_findMatches (lines : List Line) (q : List Char)
    (hq : q ≠ []) :
    (∀ m : SearchMatch,
      m ∈ findMatches lines q ↔
        m.row < lines.length ∧ m.length = q.length ∧
          occursAt (lowerStr (lines.getD m.row [])) (lowerStr q) m.col) ∧
    (findMatches lines q).Pairwise matchLT :=
  ⟨fun _ => mem_findMatches hq, findMatches_pairwise lines q⟩

theorem claim5_witness :
    ((['a', 'b'] : List Char) ≠ []) ∧
    ((∀ m : SearchMatch,
      m ∈ findMatches [['x', 'a', 'b', 'a', 'b'], ['a', 'b']] ['a', 'b'] ↔
        m.row < ([['x', 'a', 'b', 'a', 'b'], ['a', 'b']] : List Line).length ∧
          m.length = (['a', 'b'] : List Char).length ∧
          occursAt
            (lowerStr ([['x', 'a', 'b', 'a', 'b'], ['a', 'b']].getD m.row []))
            (lowerStr ['a', 'b']) m.col) ∧
     (findMatches [['x', 'a', 'b', 'a', 'b'], ['a', 'b']]
        ['a', 'b']).Pairwise matchLT) :=
  ⟨by decide,
    claim5_amended_findMatches [['x', 'a', 'b', 'a', 'b'], ['a', 'b']]
      ['a', 'b'] (by decide)⟩

/-- C6 counterexample: a single match at row 2 with the viewport at
`scrollTop = 10`, height 5, `maxScroll = 20`. The match is not
visible, the cursor moves to it, but the code scrolls to
`scrollTop = match.row = 2` (top-aligned), not to the re-centered
`max(0, match.row - height/2) = 0` the claim states. -/
theorem claim6_counterexample :
    searchRecomputeJump [⟨2, 0, 1⟩] ⟨0, 0⟩ 10 5 20 = (0, ⟨2, 0⟩, 2) ∧
    ¬ (10 ≤ 2 ∧ 2 < 10 + 5) ∧
    (2 : Nat) ≠ min 20 (2 - 5 / 2) := by
  decide

/-- C6 (amended): whenever the match set is recomputed and non-empty,
the selected current match minimizes the composite distance
`|match.row - cursor.row| * 1000 + |match.col - cursor.col|`, the
cursor moves to that match's position, and the scroll adjusts
piecewise: to `match.row` when the match is above the viewport, to
`min(maxScroll, match.row - height/2)` when below, unchanged when the
match is already visible. -/
theorem claim6_amended_recompute_jump (ms : List SearchMatch)
    (c : CursorPosition) (st h maxScroll : Nat) (hne : ms ≠ []) :
    ∃ m : SearchMatch,
      ms[closestMatchIndex ms c]? = some m ∧
      (∀ j, j < ms.length →
        matchDistance m c ≤ matchDistance (ms.getD j defMatch) c) ∧
      searchRecomputeJump ms c st h maxScroll =
        (closestMatchIndex ms c, ⟨m.row, m.col⟩,
          jumpScroll m.row st h maxScroll) ∧
      (m.row < st → jumpScroll m.row st h maxScroll = m.row) ∧
      (st ≤ m.row → m.row < st + h → jumpScroll m.row st h maxScroll = st) ∧
      (st + h ≤ m.row →
        jumpScroll m.row st h maxScroll = min maxScroll (m.row - h / 2)) := by
  obtain ⟨hidx, hmin⟩ := closestMatchIndex_spec ms c hne
  have hM : ms[closestMatchIndex ms c]? =
      some (ms.getD (closestMatchIndex ms c) defMatch) := by
    rw [List.getElem?_eq_getElem hidx]
    congr 1
    rw [List.getD_eq_getElem?_getD, List.getElem?_eq_getElem hidx]
    rfl
  refine ⟨ms.getD (closestMatchIndex ms c) defMatch, hM, hmin, ?_, ?_, ?_, ?_⟩
  · unfold searchRecomputeJump
    rw [hM]
  · intro h1
    unfold jumpScroll
    rw [if_pos h1]
  · intro h1 h2
    unfold jumpScroll
    rw [if_neg (by omega), if_neg (by omega)]
  · intro h1
    unfold jumpScroll
    rw [if_neg (by omega), if_pos h1]

theorem claim6_witness :
    (([⟨0, 0, 1⟩, ⟨3, 1, 1⟩] : List SearchMatch) ≠ []) ∧
    (∃ m : SearchMatch,
      ([⟨0, 0, 1⟩, ⟨3, 1, 1⟩] :
          List SearchMatch)[closestMatchIndex [⟨0, 0, 1⟩, ⟨3, 1, 1⟩] ⟨3, 0⟩]? =
        some m ∧
      (∀ j, j < ([⟨0, 0, 1⟩, ⟨3, 1, 1⟩] : List SearchMatch).length →
        matchDistance m ⟨3, 0⟩ ≤
          matchDistance (([⟨0, 0, 1⟩, ⟨3, 1, 1⟩] :
            List SearchMatch).getD j defMatch) ⟨3, 0⟩) ∧
      searchRecomputeJump [⟨0, 0, 1⟩, ⟨3, 1, 1⟩] ⟨3, 0⟩ 0 2 10 =
        (closestMatchIndex [⟨0, 0, 1⟩, ⟨3, 1, 1⟩] ⟨3, 0⟩, ⟨m.row, m.col⟩,
          jumpScroll m.row 0 2 10) ∧
      (m.row < 0 → jumpScroll m.row 0 2 10 = m.row) ∧
      (0 ≤ m.row → m.row < 0 + 2 → jumpScroll m.row 0 2 10 = 0) ∧
      (0 + 2 ≤ m.row →
        jumpScroll m.row 0 2 10 = min 10 (m.row - 2 / 2))) :=
  ⟨by decide,
    claim6_amended_recompute_jump [⟨0, 0, 1⟩, ⟨3, 1, 1⟩] ⟨3, 0⟩ 0 2 10
      (by decide)⟩

/-- C7 counterexample: enabling twice leaves the terminal mode state
identical to enabling once, but the escape output is duplicated (the
code has no enabled-flag guard); likewise disabling when not enabled
still writes the disable sequences, so it is not an output-level
no-op. This refutes the claim's "no duplicated escape output" /
"no-op" reading. -/
theorem claim7_counterexample :
    ((enableMouse (enableMouse ⟨false, false, []⟩)).mode1000 =
        (enableMouse ⟨false, false, []⟩).mode1000 ∧
      (enableMouse (enableMouse ⟨false, false, []⟩)).mode1006 =
        (enableMouse ⟨false, false, []⟩).mode1006) ∧
    (enableMouse (enableMouse ⟨false, false, []⟩)).output ≠
      (enableMouse ⟨false, false, []⟩).output ∧
    (disableMouse ⟨false, false, []⟩).output ≠
      (⟨false, false, []⟩ : Term).output := by
  decide

/-- C7 (amended): per widget activation lifetime exactly one enable
write (basic tracking 1000h then SGR extended 1006h, in one write)
precedes exactly one disable write (the reverse pair with the `l`
parameter), and afterwards both modes are off; enabling twice yields
the same terminal mode state as enabling once, and disabling when not
enabled leaves the (already off) mode state unchanged — but these
operations are idempotent only at the mode-state level, not at the
output level, since every call writes its escape sequences. -/
theorem claim7_amended_mouse_pairing (t : Term)
    (h0 : t.mode1000 = false) (h6 : t.mode1006 = false) :
    (mouseActivation t).output =
      t.output ++ ["\x1b[?1000h\x1b[?1006h", "\x1b[?1006l\x1b[?1000l"] ∧
    (mouseActivation t).mode1000 = false ∧
    (mouseActivation t).mode1006 = false ∧
    ((enableMouse (enableMouse t)).mode1000 =
        (enableMouse t).mode1000 ∧
      (enableMouse (enableMouse t)).mode1006 =
        (enableMouse t).mode1006) ∧
    ((disableMouse t).mode1000 = t.mode1000 ∧
      (disableMouse t).mode1006 = t.mode1006) := by
  simp [mouseActivation, enableMouse, disableMouse, h0, h6]

theorem claim7_witness :
    ((⟨false, false, []⟩ : Term).mode1000 = false) ∧
    ((⟨false, false, []⟩ : Term).mode1006 = false) ∧
    ((mouseActivation ⟨false, false, []⟩).output =
      [] ++ ["\x1b[?1000h\x1b[?1006h", "\x1b[?1006l\x1b[?1000l"] ∧
    (mouseActivation ⟨false, false, []⟩).mode1000 = false ∧
    (mouseActivation ⟨false, false, []⟩).mode1006 = false ∧
    ((enableMouse (enableMouse ⟨false, false, []⟩)).mode1000 =
        (enableMouse ⟨false, false, []⟩).mode1000 ∧
      (enableMouse (enableMouse ⟨false, false, []⟩)).mode1006 =
        (enableMouse ⟨false, false, []⟩).mode1006) ∧
    ((disableMouse ⟨false, false, []⟩).mode1000 =
        (⟨false, false, []⟩ : Term).mode1000 ∧
      (disableMouse ⟨false, false, []⟩).mode1006 =
        (⟨false, false, []⟩ : Term).mode1006)) :=
  ⟨rfl, rfl, claim7_amended_mouse_pairing ⟨false, false, []⟩ rfl rfl⟩

/-- C8: a decoded left-button press is accepted exactly when its
screen coordinates lie inside the content rectangle and the translated
buffer row exists; an accepted click sets the cursor to
`(scrollTop + (screenY - contentTop),
  min(screenX - contentLeft, length(line[bufferRow])))`; a rejected
click produces no event and leaves the state (cursor included)
unchanged. -/
theorem claim8_click_hit_test (g : Geometry) (lines : List Line)
    (st maxScroll : Nat) (e : SgrMouseEvent)
    (hp : e.isPress = true) (hb : e.button = 0) :
    (∀ cur : CursorPosition,
      leftClickHit g lines st e = some cur ↔
        ((g.contentTop : Int) ≤ e.screenY ∧
         e.screenY < (g.contentTop : Int) + g.contentHeight ∧
         (g.contentLeft : Int) ≤ e.screenX ∧
         e.screenX < (g.contentLeft : Int) + g.contentWidth ∧
         st + (e.screenY - g.contentTop).toNat < lines.length ∧
         cur = ⟨st + (e.screenY - g.contentTop).toNat,
           min ((e.screenX - g.contentLeft).toNat)
             (lineLen lines (st + (e.screenY - g.contentTop).toNat))⟩)) ∧
    (leftClickHit g lines st e = none →
      ∀ s : EState, s.scrollTop = st →
        processMouseEvent g lines maxScroll s e = s) := by
  constructor
  · intro cur
    rw [leftClickHit_some_iff]
    constructor
    · rintro ⟨_, _, h3, h4, h5, h6, h7, h8⟩
      exact ⟨h3, h4, h5, h6, h7, h8⟩
    · rintro ⟨h3, h4, h5, h6, h7, h8⟩
      exact ⟨hp, hb, h3, h4, h5, h6, h7, h8⟩
  · intro hnone s hs
    unfold processMouseEvent
    rw [if_neg (by rw [hb]; simp), if_neg (by rw [hb]; simp),
      if_pos ⟨hp, hb⟩, hs, hnone]

theorem claim8_witness :
    ((⟨0, 2, 1, true⟩ : SgrMouseEvent).isPress = true) ∧
    ((⟨0, 2, 1, true⟩ : SgrMouseEvent).button = 0) ∧
    leftClickHit ⟨1, 2, 5, 10⟩ [['a', 'b']] 0 ⟨0, 2, 1, true⟩ =
      some ⟨0, 0⟩ := by
  refine ⟨rfl, rfl, ?_⟩
  exact ((claim8_click_hit_test ⟨1, 2, 5, 10⟩ [['a', 'b']] 0 0
    ⟨0, 2, 1, true⟩ rfl rfl).1 ⟨0, 0⟩).mpr (by decide)

/-- C9: processing an accepted left-button press sets the
manual-scroll flag in addition to moving the cursor (and leaves
`scrollTop` untouched), and while that flag is set the
auto-scroll-to-cursor step never changes `scrollTop`. -/
theorem claim9_click_sets_manual_suppressing_autoscroll (g : Geometry)
    (lines : List Line) (maxScroll : Nat) (s : EState)
    (e : SgrMouseEvent) (cur : CursorPosition)
    (hp : e.isPress = true) (hb : e.button = 0)
    (hacc : leftClickHit g lines s.scrollTop e = some cur) :
    (processMouseEvent g lines maxScroll s e).manual = true ∧
    (processMouseEvent g lines maxScroll s e).cursor = cur ∧
    (processMouseEvent g lines maxScroll s e).scrollTop = s.scrollTop ∧
    (∀ row st h m, ensureVisible true row st h m = st) := by
  unfold processMouseEvent
  rw [if_neg (by rw [hb]; simp), if_neg (by rw [hb]; simp),
    if_pos ⟨hp, hb⟩, hacc]
  exact ⟨rfl, rfl, rfl, fun row st h m => rfl⟩

theorem claim9_witness :
    ((⟨0, 2, 1, true⟩ : SgrMouseEvent).isPress = true) ∧
    ((⟨0, 2, 1, true⟩ : SgrMouseEvent).button = 0) ∧
    leftClickHit ⟨1, 2, 5, 10⟩ [['a', 'b']]
      (⟨⟨0, 0⟩, 0, false⟩ : EState).scrollTop ⟨0, 2, 1, true⟩ =
        some ⟨0, 0⟩ ∧
    ((processMouseEvent ⟨1, 2, 5, 10⟩ [['a', 'b']] 0 ⟨⟨0, 0⟩, 0, false⟩
        ⟨0, 2, 1, true⟩).manual = true ∧
      (processMouseEvent ⟨1, 2, 5, 10⟩ [['a', 'b']] 0 ⟨⟨0, 0⟩, 0, false⟩
        ⟨0, 2, 1, true⟩).cursor = ⟨0, 0⟩ ∧
      (processMouseEvent ⟨1, 2, 5, 10⟩ [['a', 'b']] 0 ⟨⟨0, 0⟩, 0, false⟩
        ⟨0, 2, 1, true⟩).scrollTop =
          (⟨⟨0, 0⟩, 0, false⟩ : EState).scrollTop ∧
      (∀ row st h m, ensureVisible true row st h m = st)) :=
  ⟨rfl, rfl, by decide,
    claim9_click_sets_manual_suppressing_autoscroll ⟨1, 2, 5, 10⟩
      [['a', 'b']] 0 ⟨⟨0, 0⟩, 0, false⟩ ⟨0, 2, 1, true⟩ ⟨0, 0⟩ rfl rfl
      (by decide)⟩

end TicketTui
